import Mathlib

/-!
Shallow embedding of the `oscq_rs` crate (files `src/oscunit.rs` and
`src/oscquery_types.rs`): the OSCQuery unit codec, type/value codecs,
parameter and host-info builders, and the address tree with its
insert (`add`) and lookup (`get`) operations, together with proofs of
the specified properties.

Modelling conventions:
* Rust `f32`/`f64` payloads are carried as `Rat` (the code only stores and
  re-emits them; no float arithmetic occurs).
* `BTreeMap<String, OSCNode>` is a key-sorted association structure.
* `serde` serialization is modelled as a function into a `Json` value type;
  a `todo!()` (panic) branch of a serializer is modelled as `none`.
* serde errors are modelled by the structured type `SerdeErr`.
-/

/-- Rust's `str::split(sep)` on a character separator, over a character
list: splits at every occurrence of `sep`, keeping empty pieces (so the
result is never the empty list, and a leading/trailing separator yields a
leading/trailing empty piece). -/
def splitChar (sep : Char) : List Char → List (List Char)
  | [] => [[]]
  | c :: rest =>
    let r := splitChar sep rest
    if c = sep then [] :: r
    else
      match r with
      | [] => [[c]]
      | h :: t => (c :: h) :: t

/-- Rust's `str::split(sep).collect::<Vec<String>>()` on a `String`. -/
def rustSplit (sep : Char) (s : String) : List String :=
  (splitChar sep s.data).map (fun l => String.mk l)

/-- Joining with a separator character, inverse of `splitChar`
(Rust's `Vec::join`). -/
def joinChar (sep : Char) : List (List Char) → List Char
  | [] => []
  | [x] => x
  | x :: xs => x ++ sep :: joinChar sep xs

/-- Rust's `Vec::<String>::join("/")` as used inside `OSCNode::get`. -/
def strJoinSlash (l : List String) : String :=
  String.mk (joinChar '/' (l.map String.data))

theorem splitChar_ne_nil (sep : Char) (cs : List Char) :
    splitChar sep cs ≠ [] := by
  cases cs with
  | nil => simp [splitChar]
  | cons c rest =>
    simp only [splitChar]
    split
    · simp
    · split <;> simp

theorem joinChar_splitChar (sep : Char) (cs : List Char) :
    joinChar sep (splitChar sep cs) = cs := by
  induction cs with
  | nil => rfl
  | cons c rest ih =>
    simp only [splitChar]
    split
    · subst c
      rcases h : splitChar sep rest with _ | ⟨h1, t1⟩
      · exact absurd h (splitChar_ne_nil sep rest)
      · rw [h] at ih
        simp only [joinChar]
        cases t1 <;> simp_all [joinChar]
    · rcases h : splitChar sep rest with _ | ⟨h1, t1⟩
      · exact absurd h (splitChar_ne_nil sep rest)
      · rw [h] at ih
        cases t1 <;> simp_all [joinChar]

/-- serde deserialization errors as produced by the crate:
`unknown_variant(token, allowed)` and `custom(msg)`. -/
inductive SerdeErr where
  | unknownVariant (token : String) (allowed : List String)
  | custom (msg : String)
deriving DecidableEq, Repr

/-- `OSCDistance` from `src/oscunit.rs`. -/
inductive OSCDistance where
  | Meter | Kilometer | Decimeter | Centimeter | Millimeter | Micrometer
  | Nanometer | Picometer | Inches | Feet | Miles | Pixels
deriving DecidableEq, Repr

/-- `impl Display for OSCDistance` (`src/oscunit.rs` lines 34-51). -/
def OSCDistance.display : OSCDistance → String
  | .Meter => "m"
  | .Kilometer => "km"
  | .Decimeter => "dm"
  | .Centimeter => "cm"
  | .Millimeter => "mm"
  | .Micrometer => "um"
  | .Nanometer => "nm"
  | .Picometer => "pm"
  | .Inches => "inch"
  | .Feet => "feet"
  | .Miles => "mile"
  | .Pixels => "pixels"

/-- `OSCAngle` from `src/oscunit.rs`. -/
inductive OSCAngle where
  | Degree | Radian
deriving DecidableEq, Repr

/-- `impl Display for OSCAngle`. -/
def OSCAngle.display : OSCAngle → String
  | .Degree => "degree"
  | .Radian => "radian"

/-- `OSCGain` from `src/oscunit.rs`. -/
inductive OSCGain where
  | Linear | Midigain | Db | DbRaw
deriving DecidableEq, Repr

/-- `impl Display for OSCGain`. -/
def OSCGain.display : OSCGain → String
  | .Linear => "linear"
  | .Midigain => "midigain"
  | .Db => "db"
  | .DbRaw => "db-raw"

/-- `OSCTime` from `src/oscunit.rs`. -/
inductive OSCTime where
  | Second | Bark | Bpm | Cents | Hz | Mel | Midinote | Millisecond
  | Speed | Samples
deriving DecidableEq, Repr

/-- `impl Display for OSCTime`. -/
def OSCTime.display : OSCTime → String
  | .Second => "second"
  | .Bark => "bark"
  | .Bpm => "bpm"
  | .Cents => "cents"
  | .Hz => "hz"
  | .Mel => "mel"
  | .Midinote => "midinote"
  | .Millisecond => "ms"
  | .Speed => "speed"
  | .Samples => "samples"

/-- `OSCSpeed` from `src/oscunit.rs`. -/
inductive OSCSpeed where
  | MetersPerSeconds | MilesPerHour | KilometersPerHour | Knots
  | FeetPerSecond | FeetPerHour | PixelsPerSecond
deriving DecidableEq, Repr

/-- `impl Display for OSCSpeed` (`src/oscunit.rs` lines 144-156). -/
def OSCSpeed.display : OSCSpeed → String
  | .MetersPerSeconds => "m/s"
  | .MilesPerHour => "mph"
  | .KilometersPerHour => "km/h"
  | .Knots => "knots"
  | .FeetPerSecond => "ft/s"
  | .FeetPerHour => "ft/h"
  | .PixelsPerSecond => "pix/s"

/-- `OSCUnit` from `src/oscunit.rs`. -/
inductive OSCUnit where
  | Distance (d : OSCDistance)
  | Angle (a : OSCAngle)
  | Gain (g : OSCGain)
  | Time (t : OSCTime)
  | Speed (s : OSCSpeed)
deriving DecidableEq, Repr

/-- `impl Display for OSCUnit`: `"<category>.<member>"`.  `impl Serialize`
emits exactly this string. -/
def OSCUnit.display : OSCUnit → String
  | .Distance d => "distance." ++ d.display
  | .Angle a => "angle." ++ a.display
  | .Gain g => "gain." ++ g.display
  | .Time t => "time." ++ t.display
  | .Speed s => "speed." ++ s.display

/-- `impl Deserialize for OSCUnit` (`src/oscunit.rs` lines 196-299):
split the string on `'.'`, match the two-part slice against the category
then the member table. -/
def oscUnitDeserialize (s : String) : Except SerdeErr OSCUnit :=
  let parts := rustSplit '.' s
  match parts with
  | ["distance", u] =>
    match u with
    | "m" => .ok (.Distance .Meter)
    | "km" => .ok (.Distance .Kilometer)
    | "dm" => .ok (.Distance .Decimeter)
    | "cm" => .ok (.Distance .Centimeter)
    | "mm" => .ok (.Distance .Millimeter)
    | "um" => .ok (.Distance .Micrometer)
    | "nm" => .ok (.Distance .Nanometer)
    | "pm" => .ok (.Distance .Picometer)
    | "inches" => .ok (.Distance .Inches)
    | "feet" => .ok (.Distance .Feet)
    | "miles" => .ok (.Distance .Miles)
    | "pixels" => .ok (.Distance .Pixels)
    | _ => .error (.unknownVariant u
        ["m", "km", "dm", "cm", "mm", "um", "nm", "pm", "inches", "feet",
         "miles", "pixels"])
  | ["angle", u] =>
    match u with
    | "degree" => .ok (.Angle .Degree)
    | "radian" => .ok (.Angle .Radian)
    | _ => .error (.unknownVariant u ["degree", "radian"])
  | ["gain", u] =>
    match u with
    | "linear" => .ok (.Gain .Linear)
    | "midigain" => .ok (.Gain .Midigain)
    | "db" => .ok (.Gain .Db)
    | "db-raw" => .ok (.Gain .DbRaw)
    | _ => .error (.unknownVariant u ["linear", "midigain", "db", "db-raw"])
  | ["time", u] =>
    match u with
    | "second" => .ok (.Time .Second)
    | "bark" => .ok (.Time .Bark)
    | "bpm" => .ok (.Time .Bpm)
    | "cents" => .ok (.Time .Cents)
    | "hz" => .ok (.Time .Hz)
    | "mel" => .ok (.Time .Mel)
    | "midinote" => .ok (.Time .Midinote)
    | "ms" => .ok (.Time .Millisecond)
    | "speed" => .ok (.Time .Speed)
    | "samples" => .ok (.Time .Samples)
    | _ => .error (.unknownVariant u
        ["second", "bark", "bpm", "cents", "hz", "mel", "midinote", "ms",
         "speed", "samples"])
  | ["speed", u] =>
    match u with
    | "m/s" => .ok (.Speed .MetersPerSeconds)
    | "mph" => .ok (.Speed .MilesPerHour)
    | "km/h" => .ok (.Speed .KilometersPerHour)
    | "kn" => .ok (.Speed .Knots)
    | "ft/s" => .ok (.Speed .FeetPerSecond)
    | "ft/h" => .ok (.Speed .FeetPerHour)
    | "pix/s" => .ok (.Speed .PixelsPerSecond)
    | _ => .error (.unknownVariant u
        ["m/s", "mph", "km/h", "kn", "ft/s", "ft/h"])
  | _ => .error (.unknownVariant (String.join parts)
      ["distance.<..>", "angle<..>", "gain<..>", "time<..>", "speed<..>"])

/-- `rosc::OscTime` (NTP timestamp): seconds and fractional part (`u32`s). -/
structure OscTime where
  seconds : Nat
  fractional : Nat
deriving DecidableEq, Repr

/-- `rosc::OscColor`: four `u8` components. -/
structure OscColor where
  red : Nat
  green : Nat
  blue : Nat
  alpha : Nat
deriving DecidableEq, Repr

/-- `rosc::OscMidiMessage`: four `u8` fields. -/
structure OscMidiMessage where
  port : Nat
  status : Nat
  data1 : Nat
  data2 : Nat
deriving DecidableEq, Repr

/-- `rosc::OscType`: the closed tagged union of OSC value kinds.  Numeric
float payloads (`f32`/`f64`) are carried as `Rat`; integer payloads as
`Int`; `Vec<u8>` blobs as `List Nat`. -/
inductive OscType where
  | Int (v : Int)
  | Float (v : Rat)
  | String (v : String)
  | Blob (v : List Nat)
  | Time (v : OscTime)
  | Long (v : Int)
  | Double (v : Rat)
  | Char (v : Char)
  | Color (v : OscColor)
  | Midi (v : OscMidiMessage)
  | Bool (v : Bool)
  | Array (v : List OscType)
  | Nil
  | Inf

/-- `rosc::OscError`; only the `BadAddress` variant is produced by this
crate. -/
inductive OscError where
  | BadAddress (addr : String)
deriving DecidableEq, Repr

/-- `OSCAccess` from `src/oscquery_types.rs` (serialized via
`Serialize_repr` as its `u8` discriminant). -/
inductive OSCAccess where
  | NoAcces
  | Read
  | Write
  | ReadWrite
deriving DecidableEq, Repr

/-- The `repr(u8)` discriminants of `OSCAccess`. -/
def OSCAccess.toNat : OSCAccess → Nat
  | .NoAcces => 0
  | .Read => 1
  | .Write => 2
  | .ReadWrite => 3

/-- `BTreeMap<OscRangeBounds, f32>` specialised to the three possible keys
`Min < Max < Discrete`; each field is the optional value bound to that
key, and serialization iterates the present keys in that order
(`"MIN"`, `"MAX"`, `"VALS"`). -/
structure RangeMap where
  min : Option Rat
  max : Option Rat
  vals : Option Rat
deriving DecidableEq, Repr

/-- `OscQueryParameter` from `src/oscquery_types.rs` lines 21-28. -/
structure OscQueryParameter where
  description : String
  address : String
  value : OscType
  access : Option OSCAccess
  range : Option RangeMap
  unit : Option OSCUnit

/-- `OscQueryParameter::new` (lines 37-46): empty description, no access,
range or unit. -/
def OscQueryParameter.new (addr : String) (value : OscType) :
    OscQueryParameter :=
  { description := "", address := addr, value := value, access := none,
    range := none, unit := none }

/-- `OscQueryParameter::with_access`. -/
def OscQueryParameter.with_access (p : OscQueryParameter) (a : OSCAccess) :
    OscQueryParameter :=
  { p with access := some a }

/-- `OscQueryParameter::with_unit`. -/
def OscQueryParameter.with_unit (p : OscQueryParameter) (u : OSCUnit) :
    OscQueryParameter :=
  { p with unit := some u }

/-- `OscQueryParameter::with_min_max`: builds a fresh map holding exactly
the `Min` and `Max` keys. -/
def OscQueryParameter.with_min_max (p : OscQueryParameter) (lo hi : Rat) :
    OscQueryParameter :=
  { p with range := some { min := some lo, max := some hi, vals := none } }

/-- `OscQueryParameter::with_description`. -/
def OscQueryParameter.with_description (p : OscQueryParameter)
    (d : String) : OscQueryParameter :=
  { p with description := d }

/-- `OscHostInfoExtension` from `src/oscquery_types.rs` lines 193-218:
eleven named boolean capability flags. -/
structure OscHostInfoExtension where
  access : Bool
  value : Bool
  range : Bool
  description : Bool
  tags : Bool
  extended_type : Bool
  unit : Bool
  critical : Bool
  clipmode : Bool
  listen : Bool
  path_changed : Bool
deriving DecidableEq, Repr

/-- `Default for OscHostInfoExtension` (derived): all flags `false`. -/
def OscHostInfoExtension.defaultExt : OscHostInfoExtension :=
  { access := false, value := false, range := false, description := false,
    tags := false, extended_type := false, unit := false, critical := false,
    clipmode := false, listen := false, path_changed := false }

/-- `OscHostInfo` from `src/oscquery_types.rs` lines 112-123. -/
structure OscHostInfo where
  name : String
  osc_ip : String
  osc_port : Nat
  osc_trans : String
  extension : OscHostInfoExtension
deriving DecidableEq, Repr

/-- `OscHostInfo::new` (lines 127-135): transport defaults to `"UDP"`,
extensions to all-false. -/
def OscHostInfo.new (device_name : String) (osc_ip : String)
    (osc_port : Nat) : OscHostInfo :=
  { name := device_name, osc_ip := osc_ip, osc_port := osc_port,
    osc_trans := "UDP", extension := OscHostInfoExtension.defaultExt }

/-- `OscHostInfo::with_ext_access`. -/
def OscHostInfo.with_ext_access (h : OscHostInfo) : OscHostInfo :=
  { h with extension := { h.extension with access := true } }

/-- `OscHostInfo::with_ext_clipmode`. -/
def OscHostInfo.with_ext_clipmode (h : OscHostInfo) : OscHostInfo :=
  { h with extension := { h.extension with clipmode := true } }

/-- `OscHostInfo::with_ext_critical`. -/
def OscHostInfo.with_ext_critical (h : OscHostInfo) : OscHostInfo :=
  { h with extension := { h.extension with critical := true } }

/-- `OscHostInfo::with_ext_description`. -/
def OscHostInfo.with_ext_description (h : OscHostInfo) : OscHostInfo :=
  { h with extension := { h.extension with description := true } }

/-- `OscHostInfo::with_ext_extended_type`. -/
def OscHostInfo.with_ext_extended_type (h : OscHostInfo) : OscHostInfo :=
  { h with extension := { h.extension with extended_type := true } }

/-- `OscHostInfo::with_ext_listen`. -/
def OscHostInfo.with_ext_listen (h : OscHostInfo) : OscHostInfo :=
  { h with extension := { h.extension with listen := true } }

/-- `OscHostInfo::with_ext_path_changed`. -/
def OscHostInfo.with_ext_path_changed (h : OscHostInfo) : OscHostInfo :=
  { h with extension := { h.extension with path_changed := true } }

/-- `OscHostInfo::with_ext_range`. -/
def OscHostInfo.with_ext_range (h : OscHostInfo) : OscHostInfo :=
  { h with extension := { h.extension with range := true } }

/-- `OscHostInfo::with_ext_tags`. -/
def OscHostInfo.with_ext_tags (h : OscHostInfo) : OscHostInfo :=
  { h with extension := { h.extension with tags := true } }

/-- `OscHostInfo::with_ext_unit`. -/
def OscHostInfo.with_ext_unit (h : OscHostInfo) : OscHostInfo :=
  { h with extension := { h.extension with unit := true } }

/-- `OscHostInfo::with_ext_value`. -/
def OscHostInfo.with_ext_value (h : OscHostInfo) : OscHostInfo :=
  { h with extension := { h.extension with value := true } }

/-- serde_json output values: strings, numbers (all numeric payloads as
`Rat`), booleans, null, arrays, and objects as ordered field lists. -/
inductive Json where
  | str (s : String)
  | num (q : Rat)
  | bool (b : Bool)
  | null
  | arr (xs : List Json)
  | obj (fields : List (String × Json))
deriving Repr

/-- Field lookup in a serialized JSON object (first match). -/
def Json.getKey : Json → String → Option Json
  | .obj fields, k => (fields.find? (fun kv => kv.1 == k)).map (fun kv => kv.2)
  | _, _ => none

/-- The key set of a serialized JSON object. -/
def Json.keys : Json → List String
  | .obj fields => fields.map (fun kv => kv.1)
  | _ => []

/-- The per-element tag emitted by `osc_type_serialize`
(`src/oscquery_types.rs` lines 396-425); `Array` hits `todo!()`,
modelled as `none`. -/
def oscTypeTag : OscType → Option String
  | .Int _ => some "i"
  | .Float _ => some "f"
  | .String _ => some "s"
  | .Blob _ => some "b"
  | .Time _ => some "t"
  | .Long _ => some "l"
  | .Double _ => some "d"
  | .Char _ => some "c"
  | .Color _ => some "r"
  | .Midi _ => some "m"
  | .Bool _ => some "T"
  | .Array _ => none
  | .Nil => some "N"
  | .Inf => some "I"

/-- `osc_type_serialize` on a present (`Some`) vector: concatenate the
per-element tags left to right (the `None` field case never reaches the
serializer because of `skip_serializing_if`).  `none` models the
`todo!()` panic on `Array`. -/
def osc_type_serialize : List OscType → Option String
  | [] => some ""
  | t :: rest =>
    match oscTypeTag t with
    | none => none
    | some s =>
      match osc_type_serialize rest with
      | none => none
      | some r => some (s ++ r)

/-- The placeholder value produced by `osc_type_deserialize`
(`src/oscquery_types.rs` lines 428-474) for one tag character. -/
def oscTagDecode (c : Char) : Except SerdeErr OscType :=
  match c with
  | 'i' => .ok (.Int 0)
  | 'f' => .ok (.Float 0)
  | 's' => .ok (.String "")
  | 'b' => .ok (.Blob [])
  | 't' => .ok (.Time { seconds := 2208988800, fractional := 0 })
  | 'l' => .ok (.Long 0)
  | 'd' => .ok (.Double 0)
  | 'c' => .ok (.Char ' ')
  | 'r' => .ok (.Color { red := 0, green := 0, blue := 0, alpha := 0 })
  | 'm' => .ok (.Midi { port := 0, status := 0, data1 := 0, data2 := 0 })
  | 'T' => .ok (.Bool true)
  | 'N' => .ok .Nil
  | 'I' => .ok .Inf
  | _ => .error (.unknownVariant (String.mk [c])
      ["i", "f", "s", "b", "t", "l", "d", "c", "r", "m", "T", "N", "I"])

/-- Decoding loop of `osc_type_deserialize`: left-to-right over the
characters, aborting at the first unknown tag. -/
def oscTagDecodeChars : List Char → Except SerdeErr (List OscType)
  | [] => .ok []
  | c :: rest =>
    match oscTagDecode c with
    | .error e => .error e
    | .ok v =>
      match oscTagDecodeChars rest with
      | .error e => .error e
      | .ok vs => .ok (v :: vs)

/-- `osc_type_deserialize`: an empty string is the error
`custom("Invalid OSC Type")`; otherwise decode every character. -/
def osc_type_deserialize (s : String) : Except SerdeErr (List OscType) :=
  if s.data ≠ [] then oscTagDecodeChars s.data
  else .error (.custom "Invalid OSC Type")

/-- The per-element output of `osc_value_serialize`
(`src/oscquery_types.rs` lines 478-507): the raw scalar payload;
`none` models the `todo!()` panics (`Time`, `Color`, `Midi`, `Array`,
`Nil`, `Inf`). -/
def oscValueElem : OscType → Option Json
  | .Int i => some (.num i)
  | .Float f => some (.num f)
  | .String g => some (.str g)
  | .Blob b => some (.arr (b.map (fun x => Json.num x)))
  | .Time _ => none
  | .Long l => some (.num l)
  | .Double d => some (.num d)
  | .Char c => some (.str (String.mk [c]))
  | .Color _ => none
  | .Midi _ => none
  | .Bool b => some (.bool b)
  | .Array _ => none
  | .Nil => none
  | .Inf => none

/-- `osc_value_serialize` on a present (`Some`) vector: the sequence of
raw scalar payloads, `none` when any element hits a `todo!()` panic. -/
def osc_value_serialize : List OscType → Option (List Json)
  | [] => some []
  | v :: rest =>
    match oscValueElem v with
    | none => none
    | some j =>
      match osc_value_serialize rest with
      | none => none
      | some js => some (j :: js)

/-- Serialization of one `BTreeMap<OscRangeBounds, f32>`: the present
keys in `Min < Max < Discrete` order under their renamed names. -/
def RangeMap.serialize (r : RangeMap) : Json :=
  .obj ((r.min.map (fun q => ("MIN", Json.num q))).toList ++
        (r.max.map (fun q => ("MAX", Json.num q))).toList ++
        (r.vals.map (fun q => ("VALS", Json.num q))).toList)

/-- Serialization of `OscHostInfoExtension`: the eleven renamed boolean
fields in declaration order. -/
def OscHostInfoExtension.serialize (e : OscHostInfoExtension) : Json :=
  .obj [("ACCESS", .bool e.access), ("VALUE", .bool e.value),
        ("RANGE", .bool e.range), ("DESCRIPTION", .bool e.description),
        ("TAGS", .bool e.tags), ("EXTENDED_TYPE", .bool e.extended_type),
        ("UNIT", .bool e.unit), ("CRITICAL", .bool e.critical),
        ("CLIPMODE", .bool e.clipmode), ("LISTEN", .bool e.listen),
        ("PATH_CHANGED", .bool e.path_changed)]

/-- Serialization of `OscHostInfo`: renamed fields in declaration order. -/
def OscHostInfo.serialize (h : OscHostInfo) : Json :=
  .obj [("NAME", .str h.name), ("OSC_IP", .str h.osc_ip),
        ("OSC_PORT", .num h.osc_port), ("OSC_TRANSPORT", .str h.osc_trans),
        ("EXTENSIONS", h.extension.serialize)]

mutual
/-- `OSCNode` from `src/oscquery_types.rs` lines 224-254, with
`BTreeMap<String, OSCNode>` children modelled by the key-sorted
association structure `OSCContents`. -/
inductive OSCNode where
  | mk (description : String) (full_path : String)
       (access : Option OSCAccess) (contents : Option OSCContents)
       (osc_type : Option (List OscType)) (value : Option (List OscType))
       (range : Option (List RangeMap)) (unit : Option (List OSCUnit))
       (host_info : Option OscHostInfo) : OSCNode

/-- The child map of an `OSCNode`: a list of key/node pairs kept sorted
by key (the `BTreeMap` invariant). -/
inductive OSCContents where
  | nil : OSCContents
  | cons (key : String) (node : OSCNode) (rest : OSCContents) : OSCContents
end

def OSCNode.description : OSCNode → String
  | .mk d _ _ _ _ _ _ _ _ => d

def OSCNode.full_path : OSCNode → String
  | .mk _ fp _ _ _ _ _ _ _ => fp

def OSCNode.access : OSCNode → Option OSCAccess
  | .mk _ _ a _ _ _ _ _ _ => a

def OSCNode.contents : OSCNode → Option OSCContents
  | .mk _ _ _ c _ _ _ _ _ => c

def OSCNode.osc_type : OSCNode → Option (List OscType)
  | .mk _ _ _ _ t _ _ _ _ => t

def OSCNode.value : OSCNode → Option (List OscType)
  | .mk _ _ _ _ _ v _ _ _ => v

def OSCNode.range : OSCNode → Option (List RangeMap)
  | .mk _ _ _ _ _ _ r _ _ => r

def OSCNode.unit : OSCNode → Option (List OSCUnit)
  | .mk _ _ _ _ _ _ _ u _ => u

def OSCNode.host_info : OSCNode → Option OscHostInfo
  | .mk _ _ _ _ _ _ _ _ h => h

/-- `BTreeMap::get`: find the node bound to a key. -/
def OSCContents.lookup : OSCContents → String → Option OSCNode
  | .nil, _ => none
  | .cons key node rest, k =>
    if key = k then some node else rest.lookup k

/-- `BTreeMap::contains_key`. -/
def OSCContents.containsKey : OSCContents → String → Bool
  | .nil, _ => false
  | .cons key _ rest, k => key = k || rest.containsKey k

/-- `BTreeMap::insert`: insert at the sorted position, replacing an
existing binding of the same key. -/
def OSCContents.insert : OSCContents → String → OSCNode → OSCContents
  | .nil, k, v => .cons k v .nil
  | .cons key node rest, k, v =>
    if k = key then .cons k v rest
    else if k < key then .cons k v (.cons key node rest)
    else .cons key node (rest.insert k v)

/-- `OSCNode::root` (`src/oscquery_types.rs` lines 259-275): path `"/"`,
empty description, access `NoAcces`, no children and no channel data. -/
def OSCNode.root (host_info : Option OscHostInfo) : OSCNode :=
  .mk "" "/" (some .NoAcces) none none none none none host_info

/-- The "new empty node for now" built inside `add_recursion`
(lines 295-305): empty description, the given path, access `NoAcces`,
and no content at all. -/
def freshNode (full_path : String) : OSCNode :=
  .mk "" full_path (some .NoAcces) none none none none none none

/-- `OSCNode::add_recursion` (`src/oscquery_types.rs` lines 279-352).
The Rust method mutates in place and always returns `Ok(())`, so it is
modelled as a pure tree transformer.  With an empty address the
parameter is written into the current node: `description`, `access`
and `full_path` are overwritten from the parameter, the value is
appended to `osc_type` and `value` (creating the vectors if absent),
and `unit`/`range` entries are appended only when the parameter carries
them.  With a further key the child map is created if missing, a fresh
node is inserted if the key is new, and the recursion continues in the
child (the `lookup = none` branch is unreachable: the key was just
ensured present; Rust `unwrap`s there). -/
def OSCNode.add_recursion : OSCNode → OscQueryParameter → List String → OSCNode
  | .mk _ _ _ cont ty val rg un hi, p, [] =>
    .mk p.description p.address p.access cont
      (some (ty.getD [] ++ [p.value]))
      (some (val.getD [] ++ [p.value]))
      (match p.range with
       | some r => some (rg.getD [] ++ [r])
       | none => rg)
      (match p.unit with
       | some u => some (un.getD [] ++ [u])
       | none => un)
      hi
  | .mk d fp acc cont ty val rg un hi, p, key :: rest =>
    let cs0 := cont.getD .nil
    let cs1 := if cs0.containsKey key then cs0
               else cs0.insert key (freshNode (fp ++ key))
    match cs1.lookup key with
    | some child =>
      .mk d fp acc (some (cs1.insert key (child.add_recursion p rest)))
        ty val rg un hi
    | none => .mk d fp acc (some cs1) ty val rg un hi

/-- `OSCNode::add` (lines 355-363): split the address on `'/'`, drop the
first (empty) segment, and run `add_recursion`. -/
def OSCNode.add (n : OSCNode) (p : OscQueryParameter) : OSCNode :=
  n.add_recursion p (rustSplit '/' p.address).tail

/- The next three lemmas are stated here, before `OSCNode.get`, because
its termination proof needs them. -/

theorem strLength_mk (cs : List Char) : (String.mk cs).length = cs.length :=
  rfl

theorem strData_mk (cs : List Char) : (String.mk cs).data = cs := rfl

/-- The recursive call of `OSCNode::get` joins the *remaining* segments
back into a strictly shorter path string. -/
theorem strJoinSlash_length_lt (path a b : String) (l : List String)
    (h : rustSplit '/' path = a :: b :: l) :
    (strJoinSlash (b :: l)).length < path.length := by
  have hx : splitChar '/' path.data =
      a.data :: b.data :: l.map String.data := by
    have h2 := congrArg (List.map String.data) h
    simpa [rustSplit, List.map_map, Function.comp_def] using h2
  have hpath : path.data =
      a.data ++ '/' :: joinChar '/' (b.data :: l.map String.data) := by
    conv_lhs => rw [← joinChar_splitChar '/' path.data, hx]
    cases l <;> rfl
  have hlen : path.length = path.data.length := rfl
  have hjoin : (strJoinSlash (b :: l)).length =
      (joinChar '/' (b.data :: l.map String.data)).length := rfl
  rw [hjoin, hlen, hpath]
  simp only [List.length_append, List.length_cons]
  omega

/-- `OSCNode::get` (`src/oscquery_types.rs` lines 366-392): split the
path on `'/'`, drop the current-node segment; an exhausted or empty next
segment returns the current node; otherwise descend into the matching
child with the *remaining* segments re-joined by `'/'`, failing with
`BadAddress` carrying this call's `path` argument when there is no
child map or no matching child. -/
def OSCNode.get (n : OSCNode) (path : String) : Except OscError OSCNode :=
  match h : rustSplit '/' path with
  | [] => .ok n
  | [_cur] => .ok n
  | _cur :: next :: rest =>
    if next = "" then .ok n
    else
      match n.contents with
      | none => .error (.BadAddress path)
      | some cs =>
        match cs.lookup next with
        | none => .error (.BadAddress path)
        | some child => child.get (strJoinSlash (next :: rest))
termination_by path.length
decreasing_by
  exact strJoinSlash_length_lt path _cur next rest h

mutual
/-- Serialization of an `OSCNode` (the derived `Serialize` impl with the
field renames, `skip_serializing_if` on the optional fields, and the
custom `TYPE`/`VALUE` serializers): fields in declaration order, `none`
when a `todo!()` panic is hit inside `TYPE` or `VALUE`. -/
def OSCNode.serialize : OSCNode → Option Json
  | .mk d fp acc cont ty val rg un hi => do
    let contJ : Option (List (String × Json)) ←
      match cont with
      | none => pure none
      | some cs => do
        let fs ← cs.serializeFields
        pure (some fs)
    let tyJ : Option String ←
      match ty with
      | none => pure none
      | some v => do
        let s ← osc_type_serialize v
        pure (some s)
    let valJ : Option (List Json) ←
      match val with
      | none => pure none
      | some v => do
        let js ← osc_value_serialize v
        pure (some js)
    pure (.obj
      ([("DESCRIPTION", .str d), ("FULL_PATH", .str fp)]
       ++ (acc.map (fun a => ("ACCESS", Json.num a.toNat))).toList
       ++ (contJ.map (fun fs => ("CONTENTS", Json.obj fs))).toList
       ++ (tyJ.map (fun s => ("TYPE", Json.str s))).toList
       ++ (valJ.map (fun js => ("VALUE", Json.arr js))).toList
       ++ (rg.map (fun rs =>
            ("RANGE", Json.arr (rs.map RangeMap.serialize)))).toList
       ++ (un.map (fun us =>
            ("UNIT", Json.arr (us.map (fun u => Json.str u.display))))).toList
       ++ (hi.map (fun h => ("HOST_INFO", h.serialize))).toList))

/-- Serialization of the child map: one field per child, in map order. -/
def OSCContents.serializeFields : OSCContents → Option (List (String × Json))
  | .nil => some []
  | .cons k node rest => do
    let j ← node.serialize
    let r ← rest.serializeFields
    pure ((k, j) :: r)
end

mutual
/-- All nodes of the tree rooted at this node, the node itself
included. -/
def OSCNode.allNodes : OSCNode → List OSCNode
  | .mk d fp acc cont ty val rg un hi =>
    .mk d fp acc cont ty val rg un hi ::
      (match cont with
       | none => []
       | some cs => cs.allNodes)

/-- All nodes of all subtrees of a child map. -/
def OSCContents.allNodes : OSCContents → List OSCNode
  | .nil => []
  | .cons _ node rest => node.allNodes ++ rest.allNodes
end

/-- The (strengthened) channel invariant of one node: `osc_type` and
`value` are both absent or both present with equal length, and `unit`
and `range` may only be present when they are, with length bounded by
that common length. -/
def ChannelInv (n : OSCNode) : Prop :=
  match n.osc_type, n.value with
  | none, none => n.unit = none ∧ n.range = none
  | some ts, some vs =>
    ts.length = vs.length ∧
    (∀ us, n.unit = some us → us.length ≤ ts.length) ∧
    (∀ rs, n.range = some rs → rs.length ≤ ts.length)
  | _, _ => False

/-- The property claimed for every node: whenever `osc_type` is present,
`value` is present with the same length, and present `range`/`unit`
sequences never exceed that length. -/
def ChannelParallel (n : OSCNode) : Prop :=
  ∀ ts, n.osc_type = some ts →
    ∃ vs, n.value = some vs ∧ vs.length = ts.length ∧
      (∀ rs, n.range = some rs → rs.length ≤ ts.length) ∧
      (∀ us, n.unit = some us → us.length ≤ ts.length)

/-- Tree with one parameter at `"/a/b/c"` on a fresh root. -/
def c2tree : OSCNode :=
  (OSCNode.root none).add (OscQueryParameter.new "/a/b/c" (.Int 5))

/-- The intermediate node created for segment `"b"` while inserting
`"/a/b/c"`. -/
def c2midNode : Option OSCNode :=
  ((c2tree.contents.bind (fun cs => cs.lookup "a")).bind
    (fun n => n.contents)).bind (fun cs => cs.lookup "b")

/-- Tree with one parameter at `"/p"`, built without `with_access`. -/
def c3tree : OSCNode :=
  (OSCNode.root none).add (OscQueryParameter.new "/p" (.Float 1))

/-- The terminal node of `"/p"` in `c3tree`. -/
def c3node : Option OSCNode :=
  c3tree.contents.bind (fun cs => cs.lookup "p")

/-- Tree with one parameter at `"/a"` on a fresh root. -/
def c4tree : OSCNode :=
  (OSCNode.root none).add (OscQueryParameter.new "/a" (.Int 1))

/-- Tree where `"/x"` was inserted twice, with `Float(1.0)` then
`Float(2.0)`. -/
def c7tree : OSCNode :=
  ((OSCNode.root none).add (OscQueryParameter.new "/x" (.Float 1))).add
    (OscQueryParameter.new "/x" (.Float 2))

/-- The node at `"/x"` in `c7tree`. -/
def c7node : Option OSCNode :=
  c7tree.contents.bind (fun cs => cs.lookup "x")

/-- A value kind of the claimed tag alphabet
(every `OscType` constructor except `Array`). -/
def inTagAlphabetKind (t : OscType) : Prop :=
  match t with
  | .Array _ => False
  | _ => True

/-- A value kind whose raw scalar payload `osc_value_serialize` can emit
without hitting `todo!()`: `Int`, `Float`, `String`, `Blob`, `Long`,
`Double`, `Char`, `Bool`. -/
def scalarValueKind (t : OscType) : Prop :=
  match t with
  | .Int _ => True
  | .Float _ => True
  | .String _ => True
  | .Blob _ => True
  | .Long _ => True
  | .Double _ => True
  | .Char _ => True
  | .Bool _ => True
  | _ => False

/-- The tree built by adding a parameter with the bare address `"/"`
(description `"d"`, value `Float(1.0)`) to a fresh root. -/
def c10tree (hi : Option OscHostInfo) : OSCNode :=
  (OSCNode.root hi).add
    ((OscQueryParameter.new "/" (.Float 1)).with_description "d")

/-- The supported tag alphabet of the TYPE codec. -/
def tagAlphabet : List Char :=
  ['i', 'f', 's', 'b', 't', 'l', 'd', 'c', 'r', 'm', 'T', 'N', 'I']

/-- Induction along the spine of a child map (the mutual inductive's own
recursor has two motives, so list-like spine induction is provided
separately). -/
theorem OSCContents.spineInduction (motive : OSCContents → Prop)
    (hnil : motive .nil)
    (hcons : ∀ k n rest, motive rest → motive (.cons k n rest)) :
    ∀ cs, motive cs
  | .nil => hnil
  | .cons k n rest => hcons k n rest (spineInduction motive hnil hcons rest)

theorem OSCContents.lookup_insert_self (cs : OSCContents) (k : String)
    (v : OSCNode) : (cs.insert k v).lookup k = some v := by
  induction cs using OSCContents.spineInduction with
  | hnil => simp [OSCContents.insert, OSCContents.lookup]
  | hcons key node rest ih =>
    by_cases h1 : k = key
    · simp [OSCContents.insert, OSCContents.lookup, h1]
    · by_cases h2 : k < key
      · simp [OSCContents.insert, OSCContents.lookup, h1, h2]
      · simp [OSCContents.insert, OSCContents.lookup, h1, h2,
          Ne.symm h1, ih]

theorem OSCContents.containsKey_eq_isSome_lookup (cs : OSCContents)
    (k : String) : cs.containsKey k = (cs.lookup k).isSome := by
  induction cs using OSCContents.spineInduction with
  | hnil => simp [OSCContents.containsKey, OSCContents.lookup]
  | hcons key node rest ih =>
    by_cases h : key = k <;>
      simp [OSCContents.containsKey, OSCContents.lookup, h, ih]

theorem OSCNode.self_mem_allNodes (n : OSCNode) : n ∈ n.allNodes := by
  rw [OSCNode.allNodes.eq_def]
  split
  exact List.mem_cons_self _ _

theorem allNodes_mk_none_eq (d fp : String)
    (acc : Option OSCAccess) (ty val : Option (List OscType))
    (rg : Option (List RangeMap)) (un : Option (List OSCUnit))
    (hi : Option OscHostInfo) :
    (OSCNode.mk d fp acc none ty val rg un hi).allNodes =
      [OSCNode.mk d fp acc none ty val rg un hi] := by
  rw [OSCNode.allNodes.eq_def]

theorem allNodes_mk_some_eq (d fp : String)
    (acc : Option OSCAccess) (cs : OSCContents)
    (ty val : Option (List OscType)) (rg : Option (List RangeMap))
    (un : Option (List OSCUnit)) (hi : Option OscHostInfo) :
    (OSCNode.mk d fp acc (some cs) ty val rg un hi).allNodes =
      OSCNode.mk d fp acc (some cs) ty val rg un hi :: cs.allNodes := by
  rw [OSCNode.allNodes.eq_def]

theorem OSCContents.allNodes_insert (cs : OSCContents) (k : String)
    (v : OSCNode) (m : OSCNode) :
    m ∈ (cs.insert k v).allNodes → m ∈ cs.allNodes ∨ m ∈ v.allNodes := by
  induction cs using OSCContents.spineInduction with
  | hnil =>
    intro hm
    simp [OSCContents.insert, OSCContents.allNodes] at hm
    exact Or.inr hm
  | hcons key node rest ih =>
    intro hm
    by_cases h1 : k = key
    · simp [OSCContents.insert, h1, OSCContents.allNodes] at hm
      rcases hm with hm | hm
      · exact Or.inr hm
      · exact Or.inl (by simp [OSCContents.allNodes, hm])
    · by_cases h2 : k < key
      · simp [OSCContents.insert, h1, h2, OSCContents.allNodes] at hm
        rcases hm with hm | hm | hm
        · exact Or.inr hm
        · exact Or.inl (by simp [OSCContents.allNodes, hm])
        · exact Or.inl (by simp [OSCContents.allNodes, hm])
      · simp [OSCContents.insert, h1, h2, OSCContents.allNodes] at hm
        rcases hm with hm | hm
        · exact Or.inl (by simp [OSCContents.allNodes, hm])
        · rcases ih hm with hih | hih
          · exact Or.inl (by simp [OSCContents.allNodes, hih])
          · exact Or.inr hih

theorem OSCContents.allNodes_lookup (cs : OSCContents) (k : String)
    (child : OSCNode) (m : OSCNode) (hm : m ∈ child.allNodes) :
    cs.lookup k = some child → m ∈ cs.allNodes := by
  induction cs using OSCContents.spineInduction with
  | hnil => intro h; simp [OSCContents.lookup] at h
  | hcons key node rest ih =>
    intro h
    by_cases hk : key = k
    · simp [OSCContents.lookup, hk] at h
      subst h
      simp [OSCContents.allNodes, hm]
    · simp [OSCContents.lookup, hk] at h
      simp [OSCContents.allNodes, ih h]

theorem add_recursion_cons_found (d fp : String) (acc : Option OSCAccess)
    (cont : Option OSCContents) (ty val : Option (List OscType))
    (rg : Option (List RangeMap)) (un : Option (List OSCUnit))
    (hi : Option OscHostInfo) (p : OscQueryParameter) (key : String)
    (rest : List String) (child : OSCNode)
    (hc : (cont.getD .nil).lookup key = some child) :
    (OSCNode.mk d fp acc cont ty val rg un hi).add_recursion p (key :: rest)
      = .mk d fp acc (some ((cont.getD .nil).insert key
          (child.add_recursion p rest))) ty val rg un hi := by
  have hck : (cont.getD .nil).containsKey key = true := by
    rw [OSCContents.containsKey_eq_isSome_lookup, hc]; rfl
  simp only [OSCNode.add_recursion, hck, if_true, hc]

theorem add_recursion_cons_new (d fp : String) (acc : Option OSCAccess)
    (cont : Option OSCContents) (ty val : Option (List OscType))
    (rg : Option (List RangeMap)) (un : Option (List OSCUnit))
    (hi : Option OscHostInfo) (p : OscQueryParameter) (key : String)
    (rest : List String)
    (hc : (cont.getD .nil).lookup key = none) :
    (OSCNode.mk d fp acc cont ty val rg un hi).add_recursion p (key :: rest)
      = .mk d fp acc
          (some (((cont.getD .nil).insert key (freshNode (fp ++ key))).insert
            key ((freshNode (fp ++ key)).add_recursion p rest)))
          ty val rg un hi := by
  have hck : (cont.getD .nil).containsKey key = false := by
    rw [OSCContents.containsKey_eq_isSome_lookup, hc]; rfl
  have hl := OSCContents.lookup_insert_self (cont.getD .nil) key
    (freshNode (fp ++ key))
  simp only [OSCNode.add_recursion, hck, Bool.false_eq_true, if_false, hl]

theorem channelInv_imp_parallel (n : OSCNode) (h : ChannelInv n) :
    ChannelParallel n := by
  intro ts hts
  unfold ChannelInv at h
  rw [hts] at h
  rcases hval : n.value with _ | vs
  · rw [hval] at h; exact absurd h (by simp)
  · rw [hval] at h
    exact ⟨vs, rfl, h.1.symm, h.2.2, h.2.1⟩

theorem channelInv_freshNode (fp : String) : ChannelInv (freshNode fp) := by
  simp [ChannelInv, freshNode, OSCNode.osc_type, OSCNode.value,
    OSCNode.unit, OSCNode.range]

theorem channelInv_root (hi : Option OscHostInfo) :
    ChannelInv (OSCNode.root hi) := by
  simp [ChannelInv, OSCNode.root, OSCNode.osc_type, OSCNode.value,
    OSCNode.unit, OSCNode.range]

theorem allNodes_freshNode (fp : String) :
    (freshNode fp).allNodes = [freshNode fp] := by
  rw [freshNode, OSCNode.allNodes]

theorem allNodes_root (hi : Option OscHostInfo) :
    (OSCNode.root hi).allNodes = [OSCNode.root hi] := by
  rw [OSCNode.root, OSCNode.allNodes]

theorem channelInv_overwrite (p : OscQueryParameter) (d fp : String)
    (acc : Option OSCAccess) (cont : Option OSCContents)
    (ty val : Option (List OscType)) (rg : Option (List RangeMap))
    (un : Option (List OSCUnit)) (hi : Option OscHostInfo)
    (h : ChannelInv (.mk d fp acc cont ty val rg un hi)) :
    ChannelInv
      ((OSCNode.mk d fp acc cont ty val rg un hi).add_recursion p []) := by
  obtain ⟨pd, pa, pv, pacc, pr, pu⟩ := p
  rw [OSCNode.add_recursion]
  simp only [ChannelInv, OSCNode.osc_type, OSCNode.value, OSCNode.unit,
    OSCNode.range] at h ⊢
  rcases ty with _ | ts <;> rcases val with _ | vs
  · obtain ⟨hu, hr⟩ := h
    subst hu; subst hr
    rcases pu with _ | u <;> rcases pr with _ | r <;>
      simp [Option.getD]
  · exact absurd h (by simp)
  · exact absurd h (by simp)
  · obtain ⟨hlen, hus, hrs⟩ := h
    refine ⟨by simp [hlen], ?_, ?_⟩
    · rcases pu with _ | u
      · intro us h2
        have h3 := hus us h2
        simp only [Option.getD_some, List.length_append, List.length_cons,
          List.length_nil]
        omega
      · intro us h2
        rcases un with _ | us0
        · simp only [Option.getD_none, Option.some.injEq] at h2
          subst h2
          simp only [Option.getD_some, List.length_append,
            List.length_cons, List.length_nil, List.nil_append]
          omega
        · simp only [Option.getD_some, Option.some.injEq] at h2
          subst h2
          have h3 := hus us0 rfl
          simp only [Option.getD_some, List.length_append,
            List.length_cons, List.length_nil]
          omega
    · rcases pr with _ | r
      · intro rs h2
        have h3 := hrs rs h2
        simp only [Option.getD_some, List.length_append, List.length_cons,
          List.length_nil]
        omega
      · intro rs h2
        rcases rg with _ | rs0
        · simp only [Option.getD_none, Option.some.injEq] at h2
          subst h2
          simp only [Option.getD_some, List.length_append,
            List.length_cons, List.length_nil, List.nil_append]
          omega
        · simp only [Option.getD_some, Option.some.injEq] at h2
          subst h2
          have h3 := hrs rs0 rfl
          simp only [Option.getD_some, List.length_append,
            List.length_cons, List.length_nil]
          omega

theorem add_recursion_preserves_channelInv (p : OscQueryParameter) :
    ∀ (addr : List String) (n : OSCNode),
    (∀ m ∈ n.allNodes, ChannelInv m) →
    ∀ m ∈ (n.add_recursion p addr).allNodes, ChannelInv m := by
  intro addr
  induction addr with
  | nil =>
    intro n hn m hm
    cases n with
    | mk d fp acc cont ty val rg un hi =>
      have hold : ChannelInv (OSCNode.mk d fp acc cont ty val rg un hi) :=
        hn _ (OSCNode.self_mem_allNodes _)
      have hnew := channelInv_overwrite p d fp acc cont ty val rg un hi hold
      rw [OSCNode.add_recursion] at hm hnew
      rcases cont with _ | cs
      · rw [allNodes_mk_none_eq] at hm
        rcases List.mem_singleton.mp hm with rfl
        exact hnew
      · rw [allNodes_mk_some_eq] at hm
        rcases List.mem_cons.mp hm with rfl | hmc
        · exact hnew
        · exact hn m (by
            rw [allNodes_mk_some_eq]
            exact List.mem_cons_of_mem _ hmc)
  | cons key rest ih =>
    intro n hn m hm
    cases n with
    | mk d fp acc cont ty val rg un hi =>
      have hold : ChannelInv (OSCNode.mk d fp acc cont ty val rg un hi) :=
        hn _ (OSCNode.self_mem_allNodes _)
      have hn_sub : ∀ m2 ∈ (cont.getD OSCContents.nil).allNodes,
          ChannelInv m2 := by
        rcases cont with _ | cs
        · intro m2 hm2
          simp [Option.getD, OSCContents.allNodes] at hm2
        · intro m2 hm2
          exact hn m2 (by
            rw [allNodes_mk_some_eq]
            exact List.mem_cons_of_mem _ hm2)
      have holdt : ChannelInv (OSCNode.mk d fp acc cont ty val rg un hi) →
          ∀ cs2, ChannelInv (OSCNode.mk d fp acc (some cs2) ty val rg un hi) := by
        intro h cs2
        simp only [ChannelInv, OSCNode.osc_type, OSCNode.value,
          OSCNode.unit, OSCNode.range] at h ⊢
        exact h
      rcases hc : (cont.getD .nil).lookup key with _ | child
      · rw [add_recursion_cons_new d fp acc cont ty val rg un hi p key
          rest hc] at hm
        rw [allNodes_mk_some_eq] at hm
        rcases List.mem_cons.mp hm with rfl | hmc
        · exact holdt hold _
        · rcases OSCContents.allNodes_insert _ _ _ _ hmc with hmc1 | hmc2
          · rcases OSCContents.allNodes_insert _ _ _ _ hmc1 with hmc3 | hmc4
            · exact hn_sub m hmc3
            · rw [allNodes_freshNode] at hmc4
              rcases List.mem_singleton.mp hmc4 with rfl
              exact channelInv_freshNode _
          · refine ih (freshNode (fp ++ key)) ?_ m hmc2
            intro m2 hm2
            rw [allNodes_freshNode] at hm2
            rcases List.mem_singleton.mp hm2 with rfl
            exact channelInv_freshNode _
      · rw [add_recursion_cons_found d fp acc cont ty val rg un hi p key
          rest child hc] at hm
        rw [allNodes_mk_some_eq] at hm
        rcases List.mem_cons.mp hm with rfl | hmc
        · exact holdt hold _
        · rcases OSCContents.allNodes_insert _ _ _ _ hmc with hmc1 | hmc2
          · exact hn_sub m hmc1
          · refine ih child ?_ m hmc2
            intro m2 hm2
            exact hn_sub m2 (OSCContents.allNodes_lookup _ _ _ _ hm2 hc)

theorem add_preserves_channelInv (t : OSCNode) (p : OscQueryParameter)
    (hn : ∀ m ∈ t.allNodes, ChannelInv m) :
    ∀ m ∈ (t.add p).allNodes, ChannelInv m :=
  add_recursion_preserves_channelInv p _ t hn

theorem foldl_add_channelInv (ps : List OscQueryParameter) :
    ∀ (t : OSCNode), (∀ m ∈ t.allNodes, ChannelInv m) →
    ∀ m ∈ (List.foldl OSCNode.add t ps).allNodes, ChannelInv m := by
  induction ps with
  | nil => intro t hn; exact hn
  | cons p ps ih =>
    intro t hn
    exact ih (t.add p) (add_preserves_channelInv t p hn)

theorem get_failure_step (n : OSCNode) (path cur next : String)
    (rest : List String) (hs : rustSplit '/' path = cur :: next :: rest)
    (hne : next ≠ "")
    (hc : n.contents = none ∨
      ∃ cs, n.contents = some cs ∧ cs.lookup next = none) :
    n.get path = .error (.BadAddress path) := by
  rw [OSCNode.get.eq_def]
  split
  · simp_all
  · simp_all
  · rename_i cur2 next2 rest2 heq
    rw [hs] at heq
    injection heq with e1 e2
    injection e2 with e2 e3
    subst e1; subst e2; subst e3
    rw [if_neg hne]
    rcases hc with hc | ⟨cs, hcs, hlk⟩
    · rw [hc]
    · rw [hcs]
      simp [hlk]

theorem get_descend_step (n : OSCNode) (path cur next : String)
    (rest : List String) (cs : OSCContents) (child : OSCNode)
    (hs : rustSplit '/' path = cur :: next :: rest) (hne : next ≠ "")
    (hcs : n.contents = some cs) (hlk : cs.lookup next = some child) :
    n.get path = child.get (strJoinSlash (next :: rest)) := by
  rw [OSCNode.get.eq_def]
  split
  · simp_all
  · simp_all
  · rename_i cur2 next2 rest2 heq
    rw [hs] at heq
    injection heq with e1 e2
    injection e2 with e2 e3
    subst e1; subst e2; subst e3
    rw [if_neg hne, hcs]
    simp [hlk]

/-- C1: the claimed unit round trip `decode(encode(u)) == u` fails on the
code: `Display` writes `"inch"`, `"mile"` and `"knots"` while the
deserializer only accepts `"inches"`, `"miles"` and `"kn"`, so decoding
the encoded form of `Distance(Inches)`, `Distance(Miles)` and
`Speed(Knots)` returns an unknown-variant error instead of the unit. -/
theorem unit_roundtrip_fails_for_inches_miles_knots :
    oscUnitDeserialize (OSCUnit.display (.Distance .Inches)) =
      .error (.unknownVariant "inch"
        ["m", "km", "dm", "cm", "mm", "um", "nm", "pm", "inches", "feet",
         "miles", "pixels"])
    ∧ oscUnitDeserialize (OSCUnit.display (.Distance .Miles)) =
      .error (.unknownVariant "mile"
        ["m", "km", "dm", "cm", "mm", "um", "nm", "pm", "inches", "feet",
         "miles", "pixels"])
    ∧ oscUnitDeserialize (OSCUnit.display (.Speed .Knots)) =
      .error (.unknownVariant "knots"
        ["m/s", "mph", "km/h", "kn", "ft/s", "ft/h"]) :=
  ⟨rfl, rfl, rfl⟩

/-- C2: the `full_path` invariant fails on the code: inserting
`"/a/b/c"` into a fresh root creates the intermediate node for segment
`"b"` with `full_path` `"/ab"` (the code concatenates the parent path
and the key without a `'/'` separator), not the claimed `"/a/b"`. -/
theorem full_path_missing_separator :
    c2midNode.map OSCNode.full_path = some "/ab" ∧ "/ab" ≠ "/a/b" :=
  ⟨rfl, by decide⟩

/-- C5 (counterexample): `Nil` belongs to the claimed supported tag
alphabet (its tag serializes as `"N"`), yet `osc_value_serialize`
reaches `todo!()` — a panic, modelled as `none` — on a `Nil` value. -/
theorem value_serialize_panics_on_nil :
    osc_value_serialize [OscType.Nil] = none
    ∧ osc_type_serialize [OscType.Nil] = some "N" :=
  ⟨rfl, rfl⟩

/-- C5 (amended): the TYPE tag-string encoding is total over the tag
alphabet kinds (i, f, s, b, t, l, d, c, r, m, T, N, I), but the VALUE
scalar-sequence encoding is total only over the scalar kinds
i, f, s, b, l, d, c, T; on Time, Color, Midi, Nil and Inf values it hits
a `todo!()` panic. -/
theorem serialize_totality_amended :
    (∀ vs : List OscType, (∀ v ∈ vs, inTagAlphabetKind v) →
      (osc_type_serialize vs).isSome)
    ∧ (∀ vs : List OscType, (∀ v ∈ vs, scalarValueKind v) →
      (osc_value_serialize vs).isSome)
    ∧ (∀ v : OscType, scalarValueKind v → inTagAlphabetKind v)
    ∧ inTagAlphabetKind OscType.Nil ∧ ¬ scalarValueKind OscType.Nil := by
  refine ⟨?_, ?_, ?_, trivial, fun h => h⟩
  · intro vs h
    induction vs with
    | nil => simp [osc_type_serialize]
    | cons v rest ih =>
      have hv := h v (by simp)
      have hr := ih (fun x hx => h x (by simp [hx]))
      rw [osc_type_serialize]
      rcases htag : oscTypeTag v with _ | s
      · cases v <;> simp [oscTypeTag] at htag <;>
          simp [inTagAlphabetKind] at hv
      · rcases hrest : osc_type_serialize rest with _ | r
        · rw [hrest] at hr
          simp at hr
        · simp
  · intro vs h
    induction vs with
    | nil => simp [osc_value_serialize]
    | cons v rest ih =>
      have hv := h v (by simp)
      have hr := ih (fun x hx => h x (by simp [hx]))
      rw [osc_value_serialize]
      rcases helem : oscValueElem v with _ | j
      · cases v <;> simp [oscValueElem] at helem <;>
          simp [scalarValueKind] at hv
      · rcases hrest : osc_value_serialize rest with _ | js
        · rw [hrest] at hr
          simp at hr
        · simp
  · intro v hv
    cases v <;> trivial

/-- Witness for the amended C5 theorem at a concrete list. -/
theorem serialize_totality_amended_witness :
    (osc_type_serialize [OscType.Int 3, OscType.Nil]).isSome
    ∧ (osc_value_serialize [OscType.Int 3, OscType.Bool true]).isSome :=
  ⟨serialize_totality_amended.1 [OscType.Int 3, OscType.Nil]
      (by intro v hv; fin_cases hv <;> trivial),
    serialize_totality_amended.2.1 [OscType.Int 3, OscType.Bool true]
      (by intro v hv; fin_cases hv <;> trivial)⟩

/-- C6: in every tree reachable from `root` by a sequence of `add`
calls, every node has `value` present with the same length whenever
`osc_type` is present, and present `range`/`unit` sequences never exceed
that common length. -/
theorem tree_channel_sequences_parallel (hi : Option OscHostInfo)
    (ps : List OscQueryParameter) :
    ∀ m ∈ (List.foldl OSCNode.add (OSCNode.root hi) ps).allNodes,
      ChannelParallel m := by
  intro m hm
  refine channelInv_imp_parallel m
    (foldl_add_channelInv ps (OSCNode.root hi) ?_ m hm)
  intro m2 hm2
  rw [allNodes_root] at hm2
  rcases List.mem_singleton.mp hm2 with rfl
  exact channelInv_root hi

/-- Witness for C6 at the empty parameter list. -/
theorem tree_channel_sequences_parallel_witness :
    ChannelParallel (OSCNode.root none) :=
  tree_channel_sequences_parallel none [] (OSCNode.root none)
    (OSCNode.self_mem_allNodes _)

theorem serialize_access_key_iff (n : OSCNode) (j : Json)
    (hser : n.serialize = some j) :
    ("ACCESS" ∈ j.keys ↔ n.access.isSome) := by
  cases n with
  | mk d fp acc cont ty val rg un hi =>
    rw [OSCNode.serialize.eq_def] at hser
    rcases cont with _ | cs <;> rcases ty with _ | tv <;>
      rcases val with _ | vv <;>
      simp only [Option.pure_def, Option.bind_eq_bind, Option.some_bind,
        Option.bind_eq_some, Option.some.injEq] at hser
    all_goals
      first
      | (obtain ⟨fs, hfs, s2, hs2, js2, hjs2, hj⟩ := hser; subst hj)
      | (obtain ⟨fs, hfs, s2, hs2, hj⟩ := hser; subst hj)
      | (obtain ⟨fs, hfs, hj⟩ := hser; subst hj)
      | subst hser
    all_goals
      rcases acc with _ | a <;> rcases rg with _ | rs <;>
        rcases un with _ | us <;> rcases hi with _ | hv <;>
          simp [Json.keys, OSCNode.access, Option.toList]

/-- C3 (counterexample): inserting a parameter on which `with_access` was
never called leaves the terminal node with `access = None`, and its
serialized object has no `ACCESS` key. -/
theorem access_key_absent_for_plain_parameter :
    c3node.map OSCNode.access = some none
    ∧ (c3node.bind OSCNode.serialize).map Json.keys =
        some ["DESCRIPTION", "FULL_PATH", "TYPE", "VALUE"]
    ∧ "ACCESS" ∉ ["DESCRIPTION", "FULL_PATH", "TYPE", "VALUE"] :=
  ⟨rfl, rfl, by decide⟩

/-- C3 (amended): the root and every lazily created intermediate node
carry `access = Some(NoAccess)`, but a terminal insertion overwrites
`access` with the parameter's `access` option; the serialized object of
a node contains the `ACCESS` key exactly when the node's `access` is
present, so a parameter built without `with_access` leaves the terminal
node's serialization without `ACCESS`. -/
theorem access_presence_amended :
    (∀ hi, (OSCNode.root hi).access = some .NoAcces)
    ∧ (∀ fp, (freshNode fp).access = some .NoAcces)
    ∧ (∀ (n : OSCNode) (p : OscQueryParameter),
        (n.add_recursion p []).access = p.access)
    ∧ (∀ (n : OSCNode) (j : Json), n.serialize = some j →
        ("ACCESS" ∈ j.keys ↔ n.access.isSome)) := by
  refine ⟨fun hi => rfl, fun fp => rfl, ?_, serialize_access_key_iff⟩
  intro n p
  cases n with
  | mk d fp acc cont ty val rg un hi => rfl

/-- Witness for the amended C3 theorem at the fresh root. -/
theorem access_presence_amended_witness :
    "ACCESS" ∈ (Json.obj [("DESCRIPTION", Json.str ""),
        ("FULL_PATH", Json.str "/"), ("ACCESS", Json.num 0)]).keys ↔
      (OSCNode.root none).access.isSome :=
  access_presence_amended.2.2.2 (OSCNode.root none) _ rfl

/-- C4 (counterexample): with `"/a"` inserted, `get("/a/b/c")` fails one
level down and returns `BadAddress("a/b/c")` — the re-joined remaining
segments — not the original `"/a/b/c"`. -/
theorem badaddress_truncated_path :
    c4tree.get "/a/b/c" = .error (.BadAddress "a/b/c")
    ∧ "a/b/c" ≠ "/a/b/c" := by
  refine ⟨?_, by decide⟩
  have h1 := get_descend_step c4tree "/a/b/c" "" "a" ["b", "c"]
    (OSCContents.cons "a" (OSCNode.mk "" "/a" none none
      (some [OscType.Int 1]) (some [OscType.Int 1]) none none none) .nil)
    (OSCNode.mk "" "/a" none none (some [OscType.Int 1])
      (some [OscType.Int 1]) none none none) rfl (by decide) rfl rfl
  have h2 := get_failure_step (OSCNode.mk "" "/a" none none
      (some [OscType.Int 1]) (some [OscType.Int 1]) none none none)
    "a/b/c" "a" "b" ["c"] rfl (by decide) (Or.inl rfl)
  rw [h1]
  exact h2

/-- C4 (amended): a failed descent returns `BadAddress` carrying the
path string passed to the recursive call in which the failure occurs;
when the failure is at the first level this is the path `get` was called
with (so `get("/missing/address")` on a fresh root does fail with
`BadAddress("/missing/address")`), while deeper failures carry the
re-joined remaining segments. -/
theorem badaddress_carries_call_path :
    (∀ (n : OSCNode) (path cur next : String) (rest : List String),
      rustSplit '/' path = cur :: next :: rest → next ≠ "" →
      (n.contents = none ∨
        ∃ cs, n.contents = some cs ∧ cs.lookup next = none) →
      n.get path = .error (.BadAddress path))
    ∧ (OSCNode.root none).get "/missing/address" =
        .error (.BadAddress "/missing/address") :=
  ⟨get_failure_step,
    get_failure_step (OSCNode.root none) "/missing/address" "" "missing"
      ["address"] rfl (by decide) (Or.inl rfl)⟩

/-- Witness for the amended C4 theorem at a concrete lookup. -/
theorem badaddress_carries_call_path_witness :
    (OSCNode.root none).get "/x/y" = .error (.BadAddress "/x/y") :=
  badaddress_carries_call_path.1 (OSCNode.root none) "/x/y" "" "x" ["y"]
    rfl (by decide) (Or.inl rfl)

/-- C7: inserting the same address twice appends the second channel after
the first.  Concretely, after inserting `Float(1.0)` then `Float(2.0)` at
`"/x"`, the node's serialized `TYPE` is `"ff"` and `VALUE` is
`[1.0, 2.0]`; in general the terminal insertion appends to
`osc_type`/`value` (and to `unit`/`range` exactly when the parameter
carries them) while `description`, `access` and `full_path` are
overwritten with the parameter's data. -/
theorem same_address_appends :
    ((c7node.bind OSCNode.serialize).map (fun j =>
        (j.getKey "TYPE", j.getKey "VALUE")) =
      some (some (.str "ff"), some (.arr [.num 1, .num 2])))
    ∧ ∀ (n : OSCNode) (p : OscQueryParameter),
      (n.add_recursion p []).osc_type = some (n.osc_type.getD [] ++ [p.value])
      ∧ (n.add_recursion p []).value = some (n.value.getD [] ++ [p.value])
      ∧ (n.add_recursion p []).description = p.description
      ∧ (n.add_recursion p []).access = p.access
      ∧ (n.add_recursion p []).full_path = p.address
      ∧ (n.add_recursion p []).host_info = n.host_info
      ∧ (n.add_recursion p []).contents = n.contents
      ∧ (∀ u, p.unit = some u →
          (n.add_recursion p []).unit = some (n.unit.getD [] ++ [u]))
      ∧ (p.unit = none → (n.add_recursion p []).unit = n.unit)
      ∧ (∀ r, p.range = some r →
          (n.add_recursion p []).range = some (n.range.getD [] ++ [r]))
      ∧ (p.range = none → (n.add_recursion p []).range = n.range) := by
  refine ⟨rfl, ?_⟩
  intro n p
  cases n with
  | mk d fp acc cont ty val rg un hi =>
    obtain ⟨pd, pa, pv, pacc, pr, pu⟩ := p
    refine ⟨rfl, rfl, rfl, rfl, rfl, rfl, rfl, ?_, ?_, ?_, ?_⟩
    · intro u hu
      subst hu
      rfl
    · intro hu
      subst hu
      rfl
    · intro r hr
      subst hr
      rfl
    · intro hr
      subst hr
      rfl

/-- Witness for the C7 theorem: a unit-carrying parameter appended at a
fresh root. -/
theorem same_address_appends_witness :
    ((OSCNode.root none).add_recursion
      ((OscQueryParameter.new "/y" (.Int 1)).with_unit
        (.Distance .Meter)) []).unit =
      some ((OSCNode.root none).unit.getD [] ++ [.Distance .Meter]) :=
  (same_address_appends.2 (OSCNode.root none)
    ((OscQueryParameter.new "/y" (.Int 1)).with_unit
      (.Distance .Meter))).2.2.2.2.2.2.2.1 (.Distance .Meter) rfl

/-- C9: `OscHostInfo::new` defaults transport to `"UDP"` and all eleven
extension flags to false while storing name, ip and port unchanged; each
`with_ext_*` operation sets exactly its one flag; and the serialized
root's `HOST_INFO` carries `OSC_PORT` equal to the given port with all
eleven extension flags serialized as `false`. -/
theorem host_info_builder (nm ip : String) (port : Nat) :
    (OscHostInfo.new nm ip port).osc_trans = "UDP"
    ∧ (OscHostInfo.new nm ip port).name = nm
    ∧ (OscHostInfo.new nm ip port).osc_ip = ip
    ∧ (OscHostInfo.new nm ip port).osc_port = port
    ∧ (OscHostInfo.new nm ip port).extension = OscHostInfoExtension.defaultExt
    ∧ OscHostInfoExtension.defaultExt.serialize =
        .obj [("ACCESS", .bool false), ("VALUE", .bool false),
          ("RANGE", .bool false), ("DESCRIPTION", .bool false),
          ("TAGS", .bool false), ("EXTENDED_TYPE", .bool false),
          ("UNIT", .bool false), ("CRITICAL", .bool false),
          ("CLIPMODE", .bool false), ("LISTEN", .bool false),
          ("PATH_CHANGED", .bool false)]
    ∧ (∀ h : OscHostInfo, h.with_ext_access =
        { h with extension := { h.extension with access := true } })
    ∧ (∀ h : OscHostInfo, h.with_ext_value =
        { h with extension := { h.extension with value := true } })
    ∧ (∀ h : OscHostInfo, h.with_ext_range =
        { h with extension := { h.extension with range := true } })
    ∧ (∀ h : OscHostInfo, h.with_ext_description =
        { h with extension := { h.extension with description := true } })
    ∧ (∀ h : OscHostInfo, h.with_ext_tags =
        { h with extension := { h.extension with tags := true } })
    ∧ (∀ h : OscHostInfo, h.with_ext_extended_type =
        { h with extension := { h.extension with extended_type := true } })
    ∧ (∀ h : OscHostInfo, h.with_ext_unit =
        { h with extension := { h.extension with unit := true } })
    ∧ (∀ h : OscHostInfo, h.with_ext_critical =
        { h with extension := { h.extension with critical := true } })
    ∧ (∀ h : OscHostInfo, h.with_ext_clipmode =
        { h with extension := { h.extension with clipmode := true } })
    ∧ (∀ h : OscHostInfo, h.with_ext_listen =
        { h with extension := { h.extension with listen := true } })
    ∧ (∀ h : OscHostInfo, h.with_ext_path_changed =
        { h with extension := { h.extension with path_changed := true } })
    ∧ ((OSCNode.root (some (OscHostInfo.new nm ip port))).serialize.bind
        (fun j => j.getKey "HOST_INFO")) =
        some ((OscHostInfo.new nm ip port).serialize)
    ∧ (OscHostInfo.new nm ip port).serialize.getKey "OSC_PORT" =
        some (.num port)
    ∧ (OscHostInfo.new nm ip port).serialize.getKey "EXTENSIONS" =
        some OscHostInfoExtension.defaultExt.serialize :=
  ⟨rfl, rfl, rfl, rfl, rfl, rfl, fun _ => rfl, fun _ => rfl, fun _ => rfl,
    fun _ => rfl, fun _ => rfl, fun _ => rfl, fun _ => rfl, fun _ => rfl,
    fun _ => rfl, fun _ => rfl, fun _ => rfl, rfl, rfl, rfl⟩

theorem splitChar_append_sep (sep : Char) (cs : List Char) :
    splitChar sep (cs ++ [sep]) = splitChar sep cs ++ [[]] := by
  induction cs with
  | nil => simp [splitChar]
  | cons c rest ih =>
    rcases h : splitChar sep rest with _ | ⟨h1, t1⟩
    · exact absurd h (splitChar_ne_nil sep rest)
    · by_cases hc : c = sep
      · subst hc
        simp [splitChar, ih, h]
      · simp only [List.cons_append, splitChar, if_neg hc, h,
          List.append_eq]
        rw [ih, h]
        simp

theorem rustSplit_append_sep (s : String) :
    rustSplit '/' (s ++ "/") = rustSplit '/' s ++ [""] := by
  have hdata : (s ++ "/").data = s.data ++ ['/'] := rfl
  rw [rustSplit, hdata, splitChar_append_sep, List.map_append, rustSplit]
  rfl

/-- C10: an address ending in `'/'` produces a trailing empty segment
(first conjunct), and inserting with a final empty segment writes the
parameter's data into a child keyed by the empty string, leaving every
field of the addressed node itself — other than its child map —
untouched (second conjunct); in particular adding at `"/"` leaves the
root's own description and channel data unchanged and creates a child
named `""` that holds the parameter's data (third conjunct). -/
theorem trailing_slash_targets_empty_child :
    (∀ s : String, rustSplit '/' (s ++ "/") = rustSplit '/' s ++ [""])
    ∧ (∀ (n : OSCNode) (p : OscQueryParameter),
        (n.add_recursion p [""]).description = n.description
        ∧ (n.add_recursion p [""]).full_path = n.full_path
        ∧ (n.add_recursion p [""]).access = n.access
        ∧ (n.add_recursion p [""]).osc_type = n.osc_type
        ∧ (n.add_recursion p [""]).value = n.value
        ∧ (n.add_recursion p [""]).range = n.range
        ∧ (n.add_recursion p [""]).unit = n.unit
        ∧ (n.add_recursion p [""]).host_info = n.host_info
        ∧ (n.add_recursion p [""]).contents.bind (fun cs => cs.lookup "")
            = some ((((n.contents.getD .nil).lookup "").getD
                (freshNode (n.full_path ++ ""))).add_recursion p []))
    ∧ (∀ hi : Option OscHostInfo,
        (c10tree hi).description = ""
        ∧ (c10tree hi).full_path = "/"
        ∧ (c10tree hi).access = some .NoAcces
        ∧ (c10tree hi).osc_type = none
        ∧ (c10tree hi).value = none
        ∧ (c10tree hi).range = none
        ∧ (c10tree hi).unit = none
        ∧ (c10tree hi).host_info = hi
        ∧ (c10tree hi).contents.bind (fun cs => cs.lookup "") =
            some (.mk "d" "/" none none (some [.Float 1])
              (some [.Float 1]) none none none)) := by
  refine ⟨rustSplit_append_sep, ?_, ?_⟩
  · intro n p
    cases n with
    | mk d fp acc cont ty val rg un hi =>
      rcases hc : (cont.getD OSCContents.nil).lookup "" with _ | child
      · rw [add_recursion_cons_new d fp acc cont ty val rg un hi p "" [] hc]
        refine ⟨rfl, rfl, rfl, rfl, rfl, rfl, rfl, rfl, ?_⟩
        simp only [OSCNode.contents, Option.some_bind]
        rw [OSCContents.lookup_insert_self]
        simp only [OSCNode.contents, OSCNode.full_path]
        rw [hc]
        simp
      · rw [add_recursion_cons_found d fp acc cont ty val rg un hi p ""
          [] child hc]
        refine ⟨rfl, rfl, rfl, rfl, rfl, rfl, rfl, rfl, ?_⟩
        simp only [OSCNode.contents, Option.some_bind]
        rw [OSCContents.lookup_insert_self, hc]
        simp
  · intro hi
    exact ⟨rfl, rfl, rfl, rfl, rfl, rfl, rfl, rfl, rfl⟩

theorem strMk_append (l1 l2 : List Char) :
    String.mk l1 ++ String.mk l2 = String.mk (l1 ++ l2) := rfl

theorem oscTagDecode_roundtrip (c : Char) (hc : c ∈ tagAlphabet) :
    ∃ v, oscTagDecode c = .ok v ∧ oscTypeTag v = some (String.mk [c]) := by
  fin_cases hc <;> exact ⟨_, rfl, rfl⟩

theorem oscTagDecodeChars_roundtrip (cs : List Char)
    (h : ∀ c ∈ cs, c ∈ tagAlphabet) :
    ∃ vec, oscTagDecodeChars cs = .ok vec
      ∧ osc_type_serialize vec = some (String.mk cs)
      ∧ vec.map oscTypeTag = cs.map (fun c => some (String.mk [c])) := by
  induction cs with
  | nil => exact ⟨[], rfl, rfl, rfl⟩
  | cons c rest ih =>
    obtain ⟨v, hv, htag⟩ := oscTagDecode_roundtrip c (h c (by simp))
    obtain ⟨vec, hvec, hser, hmap⟩ := ih (fun c2 hc2 => h c2 (by simp [hc2]))
    refine ⟨v :: vec, ?_, ?_, ?_⟩
    · rw [oscTagDecodeChars, hv, hvec]
    · rw [osc_type_serialize, htag, hser]
      rfl
    · simp [htag, hmap]

/-- C8: for every nonempty string over the supported tag alphabet
(i, f, s, b, t, l, d, c, r, m, T, N, I), decoding yields a placeholder
value per character whose kind re-encodes position-wise to exactly that
character, and re-encoding the whole decoded sequence yields exactly the
original string. -/
theorem type_tag_roundtrip (s : String) (hne : s ≠ "")
    (hall : ∀ c ∈ s.data, c ∈ tagAlphabet) :
    ∃ vec, osc_type_deserialize s = .ok vec
      ∧ osc_type_serialize vec = some s
      ∧ vec.map oscTypeTag = s.data.map (fun c => some (String.mk [c])) := by
  have hmk : String.mk s.data = s := by cases s; rfl
  have hdata : s.data ≠ [] := by
    intro h0
    apply hne
    rw [← hmk, h0]
  obtain ⟨vec, h1, h2, h3⟩ := oscTagDecodeChars_roundtrip s.data hall
  refine ⟨vec, ?_, ?_, h3⟩
  · rw [osc_type_deserialize, if_pos hdata]
    exact h1
  · rw [h2, hmk]

/-- Witness for C8 at the two-character tag string `"if"`. -/
theorem type_tag_roundtrip_witness :
    ∃ vec, osc_type_deserialize "if" = .ok vec
      ∧ osc_type_serialize vec = some "if"
      ∧ vec.map oscTypeTag =
          ("if").data.map (fun c => some (String.mk [c])) :=
  type_tag_roundtrip "if" (by decide) (by decide)
